import Mathlib

/-!
Shallow embedding of the snake game engine of `SnakePage.tsx` (the single
source file with game logic).  Cell positions are modelled as unbounded
integers, exactly as JavaScript numbers behave on the integer ranges this
program manipulates.  The single impure ingredient, `Math.random()`, is
modelled by an explicit stream of natural-number draws: each call of the
source's `getRandomCell` consumes one value of the stream, and the stream
is passed to every operation that may re-roll the apple.
-/

namespace Snake

/-- The four movement directions (`type Direction` in the source). -/
inductive Direction
  | down
  | left
  | up
  | right
  deriving DecidableEq

/-- One pending direction-change marker (an element of the source's
`directionChanges` array): the direction to adopt and the cell at which
to adopt it. -/
structure DirectionChange where
  direction : Direction
  position : Int
  deriving DecidableEq

/-- One snake segment (`interface Snake` in the source). -/
structure Segment where
  direction : Direction
  directionChanges : List DirectionChange
  position : Int
  deriving DecidableEq

/-- `const BOARD_SIZE = 12`; the board has `BOARD_SIZE ^ 2` cells. -/
def BOARD_SIZE : Int := 12

/-- `getOneStepMove` from the source: a single position move given the
current position and the direction of travel. -/
def getOneStepMove (direction : Direction) (position : Int) : Int :=
  match direction with
  | .down => position + BOARD_SIZE
  | .left => position - 1
  | .right => position + 1
  | .up => position - BOARD_SIZE

/-- `getRandomCell` from the source:
`Math.floor(Math.random() * (Math.pow(BOARD_SIZE, 2) - 1))`.
`Math.random()` ranges over `[0, 1)`, so the produced integers range over
`[0, BOARD_SIZE ^ 2 - 1)`; the draw is modelled by reducing an arbitrary
natural number taken from the random stream into exactly that range. -/
def getRandomCell (r : Nat) : Int :=
  (r : Int) % (BOARD_SIZE ^ 2 - 1)

/-- The overlap test `getAppleCell` builds from the snake:
`(cell) => !!snake.find(({ position }) => position === cell)`. -/
def isOverlappingSnakeCell (snake : List Segment) (cell : Int) : Bool :=
  snake.any fun s => s.position == cell

/-- `getAppleCell` from the source: draw random cells until one misses the
snake.  The while loop consumes a prefix of the finite random stream
`draws`; `none` means the stream was exhausted before a free cell was
drawn (the source would still be looping at that point). -/
def getAppleCell (snake : List Segment) : List Nat → Option Int
  | [] => none
  | r :: draws =>
    let appleCell := getRandomCell r
    if isOverlappingSnakeCell snake appleCell then getAppleCell snake draws
    else some appleCell

/-- The body of the `snake.map` callback in `moveSnake` for a segment that
is not a turning head: move one step along the segment's own direction,
append the marker produced by the head this tick (if any) to the segment's
queue, then adopt and consume a pending marker whose cell equals the new
position. -/
def stepSegment (marker : Option DirectionChange) (seg : Segment) : Segment :=
  let nextPosition := getOneStepMove seg.direction seg.position
  let newDirectionChanges :=
    match marker with
    | some m => seg.directionChanges ++ [m]
    | none => seg.directionChanges
  match newDirectionChanges.find? (fun c => c.position == nextPosition) with
  | some c =>
    { direction := c.direction
      directionChanges := newDirectionChanges.filter fun c => c.position != nextPosition
      position := nextPosition }
  | none =>
    { direction := seg.direction
      directionChanges := newDirectionChanges
      position := nextPosition }

/-- `moveSnake` from the source.  The head is index 0; when the head turns
(`direction !== nextDirection`) it clears its own queue, records its old
position in the closure variable `headDirectionChangePosition`, and every
later iteration of the map appends that marker to its own queue (in
`stepSegment`). -/
def moveSnake (nextDirection : Direction) (snake : List Segment) : List Segment :=
  match snake with
  | [] => []
  | head :: rest =>
    if head.direction ≠ nextDirection then
      { direction := nextDirection
        directionChanges := []
        position := getOneStepMove nextDirection head.position }
        :: rest.map
            (stepSegment (some { direction := nextDirection, position := head.position }))
    else
      stepSegment none head :: rest.map (stepSegment none)

/-- `willCollide` from the source, for a nonempty snake `head :: rest`
(the source reads `snake[0]` unconditionally).  The `%` of the source is
JavaScript's remainder; both occurrences only compare the remainder with
`0`, where JavaScript's remainder is zero exactly when the Euclidean `%`
used here is zero. -/
def willCollide (nextDirection : Option Direction) (head : Segment)
    (rest : List Segment) : Bool :=
  let nextHeadPosition :=
    getOneStepMove (nextDirection.getD head.direction) head.position
  let isOffTop := decide (nextHeadPosition < 0)
  let isOffRight :=
    nextHeadPosition % BOARD_SIZE == 0 && head.position == nextHeadPosition - 1
  let isOffBottom := decide (BOARD_SIZE ^ 2 ≤ nextHeadPosition)
  let isOffLeft :=
    head.position % BOARD_SIZE == 0 && nextHeadPosition == head.position - 1
  let isCollidingWithSelf :=
    (head :: rest).any fun s => s.position == nextHeadPosition
  isOffTop || isOffRight || isOffBottom || isOffLeft || isCollidingWithSelf

/-- The page state: the `snake`, `apple` and `hasLost` `useState` cells of
`SnakePage`. -/
structure GameState where
  snake : List Segment
  apple : Int
  lost : Bool
  deriving DecidableEq

/-- The apple effect of `SnakePage`: when the (truthy, i.e. nonzero) head
position equals the apple, append a copy of the last segment moved one
step backwards along its own direction, and re-roll the apple on the
grown snake.  `none` when the snake is empty (the source would crash) or
the random stream runs out inside `getAppleCell`. -/
def checkAppleEaten (draws : List Nat) (st : GameState) : Option GameState :=
  match st.snake with
  | [] => none
  | head :: body =>
    if head.position != 0 && head.position == st.apple then
      let lastCell := (head :: body).getLast (List.cons_ne_nil _ _)
      let lastCellPosition :=
        match lastCell.direction with
        | .down => lastCell.position - BOARD_SIZE
        | .left => lastCell.position + 1
        | .right => lastCell.position - 1
        | .up => lastCell.position + BOARD_SIZE
      let newSnake := (head :: body) ++ [{ lastCell with position := lastCellPosition }]
      match getAppleCell newSnake draws with
      | some apple => some { snake := newSnake, apple := apple, lost := st.lost }
      | none => none
    else some st

/-- The reversal test at the top of `onKeyDown`. -/
def isReverse (headDirection nextDirection : Direction) : Bool :=
  (headDirection == .up && nextDirection == .down) ||
  (headDirection == .down && nextDirection == .up) ||
  (headDirection == .left && nextDirection == .right) ||
  (headDirection == .right && nextDirection == .left)

/-- One firing of the 500ms interval of `SnakePage` (the tick effect),
followed by the apple effect on the committed state.  When `lost` is true
the interval is not installed at all, so the state is unchanged.  The
interval's `moveSnake` call uses the head's current direction. -/
def advanceTick (draws : List Nat) (st : GameState) : Option GameState :=
  if st.lost then some st
  else
    match st.snake with
    | [] => none
    | head :: rest =>
      if willCollide none head rest then some { st with lost := true }
      else
        checkAppleEaten draws { st with snake := moveSnake head.direction (head :: rest) }

/-- One arrow-key press (`onKeyDown` of `SnakePage`), followed by the
apple effect on the committed state.  The source installs this handler
once at mount and never consults `hasLost` inside it. -/
def requestDirectionChange (nextDirection : Direction) (draws : List Nat)
    (st : GameState) : Option GameState :=
  match st.snake with
  | [] => none
  | head :: rest =>
    if isReverse head.direction nextDirection then some st
    else if willCollide (some nextDirection) head rest then some { st with lost := true }
    else
      checkAppleEaten draws { st with snake := moveSnake nextDirection (head :: rest) }

/-- The initial snake of `SnakePage`: four segments moving right, head at
`4 + BOARD_SIZE * Math.floor(BOARD_SIZE / 2)`, each following segment one
cell to the left. -/
def initSnake : List Segment :=
  (List.range 4).map fun (i : Nat) =>
    { direction := .right
      directionChanges := []
      position := 4 + BOARD_SIZE * (BOARD_SIZE / 2) - (i : Int) }

/-- The initial page state: the initial snake, a first apple drawn from
the random stream, `hasLost = false`. -/
def mkInitState (draws : List Nat) : Option GameState :=
  (getAppleCell initSnake draws).map fun apple =>
    { snake := initSnake, apple := apple, lost := false }

/-- One external event driving the engine: a timer tick or an arrow key,
each carrying the random draws its possible apple re-roll consumes. -/
inductive Ev
  | tick (draws : List Nat)
  | key (nextDirection : Direction) (draws : List Nat)

/-- Run a sequence of events from a state. -/
def runEvents : List Ev → GameState → Option GameState
  | [], st => some st
  | e :: es, st =>
    match
      (match e with
       | .tick draws => advanceTick draws st
       | .key d draws => requestDirectionChange d draws st) with
    | some st' => runEvents es st'
    | none => none

/-- Committed states reachable from an initial state by any sequence of
ticks and key presses (over all random streams). -/
inductive Reachable : GameState → Prop
  | init (draws : List Nat) (st : GameState) :
      mkInitState draws = some st → Reachable st
  | tick (draws : List Nat) (st st' : GameState) :
      Reachable st → advanceTick draws st = some st' → Reachable st'
  | key (d : Direction) (draws : List Nat) (st st' : GameState) :
      Reachable st → requestDirectionChange d draws st = some st' → Reachable st'

/-- The exact opposite of a direction (the claims' reversal pairing:
Up/Down, Left/Right). -/
def oppositeDir : Direction → Direction
  | .up => .down
  | .down => .up
  | .left => .right
  | .right => .left

/-- The collision disjunction exactly as claim C1 words it, over the
head's one-step successor cell `n`: `n < 0`; `n ≥ N^2`; `n`'s column is 0
while the head's column was `N - 1` and the step was rightward; the
head's column is 0, the step was leftward, and `n` is one less than the
head's position; or `n` equals the current position of some segment. -/
def specCollide (nextDirection : Option Direction) (head : Segment)
    (rest : List Segment) : Prop :=
  let d := nextDirection.getD head.direction
  let n := getOneStepMove d head.position
  n < 0 ∨ BOARD_SIZE ^ 2 ≤ n ∨
    (n % BOARD_SIZE = 0 ∧ head.position % BOARD_SIZE = BOARD_SIZE - 1 ∧ d = .right) ∨
    (head.position % BOARD_SIZE = 0 ∧ d = .left ∧ n = head.position - 1) ∨
    (∃ s ∈ head :: rest, s.position = n)

/-- The board offset of one step in a direction. -/
def stepOffset (d : Direction) : Int :=
  getOneStepMove d 0

/-- A straight snake of length `L`: every segment has direction `d0`, an
empty queue, and the `i`-th segment sits `i` steps behind the head cell
`p` along `d0`.  This is the configuration of any snake that has never
turned (the initial snake is `straightSnake 4 right 76`, and growth keeps
a never-turned snake straight). -/
def straightSnake (L : Nat) (d0 : Direction) (p : Int) : List Segment :=
  (List.range L).map fun (i : Nat) =>
    { direction := d0
      directionChanges := []
      position := p - (i : Int) * stepOffset d0 }

/-- Closed form for segment `i` of a straight snake `t` moves after the
head's single turn to `d` at cell `p` (the turning move itself being move
number 1): segments `0..t` have turned at `p`, consumed their copy of the
marker, and follow the new ray from `p`; segments beyond `t` still move
along `d0`, carrying the pending marker `(d, p)`. -/
def turnedSeg (d0 d : Direction) (p : Int) (t i : Nat) : Segment :=
  if i ≤ t then
    { direction := d
      directionChanges := []
      position := p + ((t : Int) - i) * stepOffset d }
  else
    { direction := d0
      directionChanges := [{ direction := d, position := p }]
      position := p + ((t : Int) - i) * stepOffset d0 }

/-- A snake occupying every cell the source's random draw can ever
produce: cells `0 .. BOARD_SIZE^2 - 2`.  It occupies fewer cells than the
board has, so cell `143` is free. -/
def snakeAllDrawableCells : List Segment :=
  (List.range 143).map fun (i : Nat) =>
    { direction := .right, directionChanges := [], position := (i : Int) }

/-- A non-lost state about to move its head leftwards onto the apple at
cell 0, the top-left corner of the board. -/
def c2State : GameState :=
  { snake := [⟨.left, [], 1⟩, ⟨.left, [], 2⟩, ⟨.left, [], 3⟩, ⟨.left, [], 4⟩]
    apple := 0
    lost := false }

/-- A lost state: the head hit the right wall at row 3 (cell 47, column
11) while moving right. -/
def c3State : GameState :=
  { snake := [⟨.right, [], 47⟩, ⟨.right, [], 46⟩, ⟨.right, [], 45⟩, ⟨.right, [], 44⟩]
    apple := 100
    lost := true }

/-- A non-lost state whose head, at column 11 moving right, is about to
collide with the right wall. -/
def c8State : GameState :=
  { snake := [⟨.right, [], 47⟩, ⟨.right, [], 46⟩, ⟨.right, [], 45⟩, ⟨.right, [], 44⟩]
    apple := 100
    lost := false }

/-- An event run from the initial state (initial apple drawn at cell 88):
eat at 88 while turning down, eat at 100 (apple re-rolled to 111), then
steer the head around a 6-cell loop so that on the final key press the
head lands on the apple at 111 exactly when the tail consumes the turn
marker at cell 112. -/
def c6Events : List Ev :=
  [.key .down [100], .tick [111], .tick [], .key .right [], .key .down [],
   .key .left [], .tick [], .key .up [0]]

/-- Every value `getRandomCell` can produce lands on
`snakeAllDrawableCells`. -/
lemma getRandomCell_overlaps_all (r : Nat) :
    isOverlappingSnakeCell snakeAllDrawableCells (getRandomCell r) = true := by
  have h0 : (0 : Int) ≤ getRandomCell r :=
    Int.emod_nonneg _ (by norm_num [BOARD_SIZE])
  have h143 : getRandomCell r < 143 := by
    have := Int.emod_lt_of_pos (r : Int)
      (show (0 : Int) < BOARD_SIZE ^ 2 - 1 by norm_num [BOARD_SIZE])
    simpa [getRandomCell, BOARD_SIZE] using this
  unfold isOverlappingSnakeCell snakeAllDrawableCells
  rw [List.any_eq_true]
  refine ⟨⟨.right, [], getRandomCell r⟩, ?_, by simp⟩
  refine List.mem_map.mpr ⟨(getRandomCell r).toNat, List.mem_range.mpr (by omega), ?_⟩
  exact congrArg (fun z : Int => (⟨.right, [], z⟩ : Segment)) (by omega)

/-- `moveSnake` keeps a nonempty snake nonempty and keeps the head's
pending-turn queue empty. -/
lemma moveSnake_head_queue (d : Direction) (h : Segment) (rest : List Segment)
    (hq : h.directionChanges = []) :
    ∃ h' rest', moveSnake d (h :: rest) = h' :: rest' ∧ h'.directionChanges = [] := by
  rw [moveSnake]
  by_cases hd : h.direction = d
  · rw [if_neg (not_not_intro hd)]
    refine ⟨_, _, rfl, ?_⟩
    simp [stepSegment, hq]
  · rw [if_pos hd]
    exact ⟨_, _, rfl, rfl⟩

/-- The apple effect either leaves the state unchanged or appends exactly
one segment to the snake. -/
lemma checkAppleEaten_cases (draws : List Nat) (st st' : GameState)
    (h : checkAppleEaten draws st = some st') :
    st' = st ∨ ∃ x, st'.snake = st.snake ++ [x] := by
  unfold checkAppleEaten at h
  split at h
  · exact absurd h (by simp)
  case _ head body heq =>
    split at h
    · simp only [] at h
      split at h
      case _ apple happle =>
        right
        injection h with h
        exact ⟨_, by rw [← h, heq]⟩
      · exact absurd h (by simp)
    · left
      injection h with h
      exact h.symm

/-- One step never has offset zero. -/
lemma stepOffset_ne_zero (d : Direction) : stepOffset d ≠ 0 := by
  cases d <;> decide

/-- `getOneStepMove` adds the direction's fixed offset. -/
lemma getOneStepMove_eq (d : Direction) (p : Int) :
    getOneStepMove d p = p + stepOffset d := by
  cases d <;> simp [getOneStepMove, stepOffset, BOARD_SIZE] <;> omega

/-- Stepping a segment with an empty queue and no incoming marker just
advances its position. -/
lemma stepSegment_empty (dd : Direction) (q : Int) :
    stepSegment none ⟨dd, [], q⟩ = ⟨dd, [], q + stepOffset dd⟩ := by
  unfold stepSegment
  simp [getOneStepMove_eq]

/-- A segment whose single pending marker sits exactly one step ahead
adopts the marker's direction and consumes it. -/
lemma stepSegment_single_hit (d0 d : Direction) (p q : Int)
    (h : q + stepOffset d0 = p) :
    stepSegment none ⟨d0, [⟨d, p⟩], q⟩ = ⟨d, [], p⟩ := by
  unfold stepSegment
  simp [getOneStepMove_eq, h]

/-- A segment whose single pending marker is not one step ahead keeps
direction and marker. -/
lemma stepSegment_single_miss (d0 d : Direction) (p q : Int)
    (h : q + stepOffset d0 ≠ p) :
    stepSegment none ⟨d0, [⟨d, p⟩], q⟩ = ⟨d0, [⟨d, p⟩], q + stepOffset d0⟩ := by
  unfold stepSegment
  simp [getOneStepMove_eq, beq_eq_false_iff_ne, Ne.symm h, bne_iff_ne, h]

/-- An empty-queue segment that receives the head's fresh marker adopts
it at once when the marker cell is one step ahead. -/
lemma stepSegment_some_hit (d0 d : Direction) (p q : Int)
    (h : q + stepOffset d0 = p) :
    stepSegment (some ⟨d, p⟩) ⟨d0, [], q⟩ = ⟨d, [], p⟩ := by
  unfold stepSegment
  simp [getOneStepMove_eq, h]

/-- An empty-queue segment that receives the head's fresh marker keeps it
pending when the marker cell is not one step ahead. -/
lemma stepSegment_some_miss (d0 d : Direction) (p q : Int)
    (h : q + stepOffset d0 ≠ p) :
    stepSegment (some ⟨d, p⟩) ⟨d0, [], q⟩ = ⟨d0, [⟨d, p⟩], q + stepOffset d0⟩ := by
  unfold stepSegment
  simp [getOneStepMove_eq, beq_eq_false_iff_ne, Ne.symm h, bne_iff_ne, h]

/-- A plain step maps `turnedSeg` at time `t` to `turnedSeg` at `t + 1`. -/
lemma stepSegment_none_turned (d0 d : Direction) (p : Int) (t i : Nat) :
    stepSegment none (turnedSeg d0 d p t i) = turnedSeg d0 d p (t + 1) i := by
  simp only [turnedSeg]
  rcases le_or_lt i t with hle | hlt
  · rw [if_pos hle, if_pos (by omega : i ≤ t + 1), stepSegment_empty]
    simp only [Segment.mk.injEq, true_and]
    push_cast
    ring
  · rcases Nat.lt_or_ge (t + 1) i with hlt2 | hge
    · rw [if_neg (by omega), if_neg (by omega)]
      have hne : p + ((t : Int) - i) * stepOffset d0 + stepOffset d0 ≠ p := by
        intro hc
        have h1 : ((t : Int) - i + 1) * stepOffset d0 = 0 := by linear_combination hc
        rcases mul_eq_zero.mp h1 with h2 | h2
        · omega
        · exact stepOffset_ne_zero d0 h2
      rw [stepSegment_single_miss d0 d p _ hne]
      simp only [Segment.mk.injEq, true_and]
      push_cast
      ring
    · have hi : i = t + 1 := by omega
      subst hi
      rw [if_neg (by omega), if_pos (by omega)]
      rw [stepSegment_single_hit d0 d p _ (by push_cast; ring)]
      simp only [Segment.mk.injEq, true_and]
      push_cast
      ring

/-- The turning move, seen by follower `i + 1` of a straight snake. -/
lemma stepSegment_marker_straight (d0 d : Direction) (p : Int) (i : Nat) :
    stepSegment (some ⟨d, p⟩) ⟨d0, [], p - ((i : Int) + 1) * stepOffset d0⟩ =
      turnedSeg d0 d p 1 (i + 1) := by
  simp only [turnedSeg]
  cases i with
  | zero =>
    rw [if_pos (by omega)]
    rw [stepSegment_some_hit d0 d p _ (by push_cast; ring)]
    simp only [Segment.mk.injEq, true_and]
    push_cast
    ring
  | succ j =>
    rw [if_neg (by omega)]
    have hne : p - ((j : Int) + 1 + 1) * stepOffset d0 + stepOffset d0 ≠ p := by
      intro hc
      have h1 : ((j : Int) + 1) * stepOffset d0 = 0 := by linear_combination - hc
      rcases mul_eq_zero.mp h1 with h2 | h2
      · omega
      · exact stepOffset_ne_zero d0 h2
    rw [show ((j + 1 : Nat) : Int) + 1 = (j : Int) + 1 + 1 by push_cast; ring]
    rw [stepSegment_some_miss d0 d p _ hne]
    simp only [Segment.mk.injEq, true_and]
    push_cast
    ring

/-- Peeling the head off a straight snake. -/
lemma straightSnake_succ (L : Nat) (d0 : Direction) (p : Int) :
    straightSnake (L + 1) d0 p =
      (⟨d0, [], p⟩ : Segment) ::
        (List.range L).map fun (i : Nat) =>
          (⟨d0, [], p - ((i : Int) + 1) * stepOffset d0⟩ : Segment) := by
  rw [straightSnake, List.range_succ_eq_map, List.map_cons, List.map_map, List.cons_eq_cons]
  refine ⟨by simp, ?_⟩
  apply List.map_congr_left
  intro i _
  simp only [Function.comp_apply, Segment.mk.injEq, true_and]
  push_cast
  ring

/-- The head's turning move takes a straight snake to the `t = 1` closed
form: the head and its first follower adopt the new direction at once;
every further segment stores the pending marker. -/
lemma moveSnake_straight (L : Nat) (d0 d : Direction) (hd : d ≠ d0) (p : Int) :
    moveSnake d (straightSnake L d0 p) = (List.range L).map (turnedSeg d0 d p 1) := by
  cases L with
  | zero => rfl
  | succ L =>
    rw [straightSnake_succ, moveSnake]
    rw [if_pos (show Segment.direction ⟨d0, [], p⟩ ≠ d from Ne.symm hd)]
    rw [List.range_succ_eq_map, List.map_cons, List.map_map, List.map_map, List.cons_eq_cons]
    constructor
    · simp only [turnedSeg, if_pos (by omega : (0 : Nat) ≤ 1), Segment.mk.injEq, true_and]
      rw [getOneStepMove_eq]
      push_cast
      ring
    · apply List.map_congr_left
      intro i _
      simp only [Function.comp_apply]
      exact stepSegment_marker_straight d0 d p i

/-- A straight-ahead move advances the closed form by one tick: exactly
one further segment consumes its marker. -/
lemma moveSnake_turned (L : Nat) (d0 d : Direction) (p : Int) (t : Nat) :
    moveSnake d ((List.range L).map (turnedSeg d0 d p t)) =
      (List.range L).map (turnedSeg d0 d p (t + 1)) := by
  cases L with
  | zero => rfl
  | succ L =>
    rw [List.range_succ_eq_map, List.map_cons, List.map_cons, List.map_map, List.map_map,
      moveSnake]
    rw [if_neg (show ¬ (turnedSeg d0 d p t 0).direction ≠ d by
      simp [turnedSeg, if_pos (Nat.zero_le t)])]
    rw [List.map_map, List.cons_eq_cons]
    constructor
    · exact stepSegment_none_turned d0 d p t 0
    · apply List.map_congr_left
      intro i _
      simp only [Function.comp_apply]
      exact stepSegment_none_turned d0 d p t (i + 1)

/-- Claim C1: for every snake with at least one segment and every
candidate direction (defaulting to the head's current direction when
absent), `willCollide` returns true exactly when the head's one-step
successor cell `n` satisfies the claim's disjunction: `n < 0`,
`n ≥ N^2`, `n`'s column is 0 with the head at column `N - 1` stepping
rightward, the head's column is 0 stepping leftward with `n` one less
than the head's position, or `n` equals some segment's current position
(the tail's pre-move position included). -/
theorem willCollide_iff_specCollide (nextDirection : Option Direction) (head : Segment)
    (rest : List Segment) :
    willCollide nextDirection head rest = true ↔ specCollide nextDirection head rest := by
  obtain ⟨dir, dc, pos⟩ := head
  have core : ∀ d : Direction,
      willCollide (some d) ⟨dir, dc, pos⟩ rest = true ↔
        specCollide (some d) ⟨dir, dc, pos⟩ rest := by
    intro d
    unfold willCollide specCollide
    simp only [Option.getD_some, Bool.or_eq_true, Bool.and_eq_true, decide_eq_true_eq,
      beq_iff_eq, List.any_eq_true]
    cases d <;>
      simp only [getOneStepMove, BOARD_SIZE] <;>
      (generalize hS :
        (∃ s, s ∈ (⟨dir, dc, pos⟩ : Segment) :: rest ∧ Segment.position s = _) = S) <;>
      by_cases hs : S <;> simp [hs] <;> omega
  cases nextDirection with
  | some d => exact core d
  | none => exact core dir

/-- Claim C2 (code bug): with the apple at cell 0, a tick that moves the
head onto the apple produces no growth and no apple relocation — the
`headPosition && headPosition === apple` guard treats cell 0 as falsy.
The snake stays at length 4 and the apple stays at 0, underneath the
snake, where the claim requires length 5 and a re-placed apple. -/
theorem apple_at_zero_skips_growth :
    advanceTick [] c2State =
      some { snake := [⟨.left, [], 0⟩, ⟨.left, [], 1⟩, ⟨.left, [], 2⟩, ⟨.left, [], 3⟩]
             apple := 0
             lost := false } ∧
    (advanceTick [] c2State).map (fun st => st.snake.length) = some 4 := by
  exact ⟨by decide, by decide⟩

/-- Claim C3 (code bug): a lost state is not terminal.  The tick path is
indeed a no-op once lost, but the key handler never consults the lost
flag: pressing Up in `c3State` moves the whole snake (head to cell 35)
while `lost` stays true, so the state changes. -/
theorem lost_state_reacts_to_keys :
    advanceTick [] c3State = some c3State ∧
    requestDirectionChange .up [] c3State =
      some { snake := [⟨.up, [], 35⟩, ⟨.up, [], 47⟩,
                       ⟨.right, [⟨.up, 47⟩], 46⟩, ⟨.right, [⟨.up, 47⟩], 45⟩]
             apple := 100
             lost := true } ∧
    requestDirectionChange .up [] c3State ≠ some c3State := by
  exact ⟨by decide, by decide, by decide⟩

/-- Claim C4, counterexample: on the very move in which the head turns
(tick `k`, at cell 76), the first segment behind the head has already
adopted the new direction — its post-move position is exactly the turn
cell — whereas the claim schedules the `i`-th follower's turn for tick
`k + i`, i.e. the first follower only on tick `k + 1`. -/
theorem first_follower_turns_on_turn_tick :
    moveSnake .down (straightSnake 4 .right 76) =
      [⟨.down, [], 88⟩, ⟨.down, [], 76⟩,
       ⟨.right, [⟨.down, 76⟩], 75⟩, ⟨.right, [⟨.down, 76⟩], 74⟩] := by
  decide

/-- Claim C4 as amended: for a straight snake of any length `L` whose
head turns once to `d ≠ d0` (the turning move being move number 1) and
then keeps moving straight, after `t ≥ 1` moves segment `i` has turned
exactly when `i ≤ t` — so the `i`-th follower adopts the head's new
direction precisely when its post-move position equals the turn cell
`p`, on move `k + i - 1` when the turning move is move `k`: the head and
first follower turn together, and the turn then propagates one segment
per tick.  Segments that have turned have consumed their marker (empty
queue) and follow the new ray from `p`; the rest still carry the pending
marker `(d, p)` and move along `d0`. -/
theorem moveSnake_turn_propagation (L : Nat) (d0 d : Direction) (hd : d ≠ d0) (p : Int)
    (t : Nat) (ht : 1 ≤ t) :
    (moveSnake d)^[t] (straightSnake L d0 p) = (List.range L).map (turnedSeg d0 d p t) := by
  induction t with
  | zero => exact absurd ht (by omega)
  | succ t ih =>
    rcases Nat.eq_zero_or_pos t with rfl | hpos
    · simpa using moveSnake_straight L d0 d hd p
    · rw [Function.iterate_succ_apply', ih hpos, moveSnake_turned]

/-- Witness for claim C4's amended theorem at `L = 5`, turn right → down
at cell 76, three moves. -/
theorem moveSnake_turn_propagation_witness :
    (Direction.down ≠ Direction.right ∧ 1 ≤ 3) ∧
      (moveSnake .down)^[3] (straightSnake 5 .right 76) =
        (List.range 5).map (turnedSeg .right .down 76 3) :=
  ⟨⟨by decide, by decide⟩,
    moveSnake_turn_propagation 5 .right .down (by decide) 76 3 (by decide)⟩

/-- Claim C5 (code bug): `getRandomCell` can only produce cells in
`[0, N^2 - 1)`, so against a snake occupying every drawable cell
(`0 .. 142`, leaving only the corner cell 143 free) the `getAppleCell`
loop never exits: every finite prefix of every random stream is
exhausted.  The claim requires termination whenever the snake occupies
fewer than `N^2` distinct cells. -/
theorem getAppleCell_stuck_with_free_corner (draws : List Nat) :
    getAppleCell snakeAllDrawableCells draws = none := by
  induction draws with
  | nil => rfl
  | cons r rs ih => simp [getAppleCell, getRandomCell_overlaps_all r, ih]

/-- Claim C6 (code bug): a committed state reachable from the initial
state by ticks and key presses in which two segments share a cell.  On
the final key press the head eats the apple at cell 111 in the same move
in which the tail consumes a turn marker at cell 112 and turns right;
growth then extends the tail backwards along its new direction, putting
the appended segment on cell 111 — the head's own cell. -/
theorem reachable_run_duplicate_positions :
    ((mkInitState [88]).bind (runEvents c6Events)).map
        (fun st => st.snake.map Segment.position) =
      some [111, 123, 124, 125, 113, 112, 111] ∧
    ¬ ([111, 123, 124, 125, 113, 112, 111] : List Int).Nodup := by
  exact ⟨by decide, by decide⟩

/-- Claim C7: requesting the exact opposite of the head's current
direction is a no-op on the whole state, for every non-lost state with a
nonempty snake and every random stream. -/
theorem reverse_request_is_noop (st : GameState) (h : Segment) (rest : List Segment)
    (draws : List Nat) (hlost : st.lost = false) (hs : st.snake = h :: rest) :
    requestDirectionChange (oppositeDir h.direction) draws st = some st := by
  have hrev : isReverse h.direction (oppositeDir h.direction) = true := by
    cases hd : h.direction <;> simp [isReverse, oppositeDir, hd]
  simp [requestDirectionChange, hs, hrev]

/-- Witness for claim C7 at a concrete two-segment rightward state. -/
theorem reverse_request_is_noop_witness :
    requestDirectionChange (oppositeDir Direction.right) []
        { snake := [⟨.right, [], 76⟩, ⟨.right, [], 75⟩], apple := 100, lost := false } =
      some { snake := [⟨.right, [], 76⟩, ⟨.right, [], 75⟩], apple := 100, lost := false } :=
  reverse_request_is_noop _ ⟨.right, [], 76⟩ [⟨.right, [], 75⟩] [] rfl rfl

/-- Claim C8: whenever the collision check fires on either entry point —
for the requested direction on a key press that is not a reversal, or
for the head's current direction on a tick — the transition sets `lost`
and changes nothing else: snake and apple are untouched and the head
does not move. -/
theorem collision_check_sets_lost_only (st : GameState) (h : Segment)
    (rest : List Segment) (d : Direction) (draws draws' : List Nat)
    (hlost : st.lost = false) (hs : st.snake = h :: rest) :
    (isReverse h.direction d = false → willCollide (some d) h rest = true →
      requestDirectionChange d draws st = some { st with lost := true }) ∧
    (willCollide none h rest = true →
      advanceTick draws' st = some { st with lost := true }) := by
  constructor
  · intro hrev hcol
    simp [requestDirectionChange, hs, hrev, hcol]
  · intro hcol
    simp [advanceTick, hs, hlost, hcol]

/-- Witness for claim C8 at the spec's concrete scenario: head at column
11 moving right; both the key press for Right and the plain tick flag
the wall and only set `lost`. -/
theorem collision_check_sets_lost_only_witness :
    requestDirectionChange .right [] c8State = some { c8State with lost := true } ∧
    advanceTick [] c8State = some { c8State with lost := true } :=
  ⟨(collision_check_sets_lost_only c8State ⟨.right, [], 47⟩
      [⟨.right, [], 46⟩, ⟨.right, [], 45⟩, ⟨.right, [], 44⟩] .right [] [] rfl rfl).1
      (by decide) (by decide),
   (collision_check_sets_lost_only c8State ⟨.right, [], 47⟩
      [⟨.right, [], 46⟩, ⟨.right, [], 45⟩, ⟨.right, [], 44⟩] .right [] [] rfl rfl).2
      (by decide)⟩

/-- Claim C9: from the initial state (snake `[76, 75, 74, 73]`, all
directions Right, not lost) one tick with no direction change yields
segments `[77, 76, 75, 74]`, all directions Right, `lost = false`, for
every apple position other than cell 77 (an apple at 77 would be eaten)
and every random stream. -/
theorem initial_tick_moves_snake_right (a : Int) (draws : List Nat) (h : a ≠ 77) :
    advanceTick draws { snake := initSnake, apple := a, lost := false } =
      some { snake := [⟨.right, [], 77⟩, ⟨.right, [], 76⟩, ⟨.right, [], 75⟩, ⟨.right, [], 74⟩]
             apple := a
             lost := false } := by
  have hinit : initSnake =
      [⟨.right, [], 76⟩, ⟨.right, [], 75⟩, ⟨.right, [], 74⟩, ⟨.right, [], 73⟩] := by decide
  have hbeq : ((77 : Int) == a) = false := by
    simp only [beq_eq_false_iff_ne, ne_eq]
    omega
  simp [advanceTick, hinit, checkAppleEaten, hbeq,
    show moveSnake .right [(⟨.right, [], 76⟩ : Segment), ⟨.right, [], 75⟩,
        ⟨.right, [], 74⟩, ⟨.right, [], 73⟩] =
      [⟨.right, [], 77⟩, ⟨.right, [], 76⟩, ⟨.right, [], 75⟩, ⟨.right, [], 74⟩] from by decide,
    show willCollide none (⟨.right, [], 76⟩ : Segment)
        [⟨.right, [], 75⟩, ⟨.right, [], 74⟩, ⟨.right, [], 73⟩] = false from by decide]

/-- Witness for claim C9 with the apple at cell 100. -/
theorem initial_tick_moves_snake_right_witness :
    (100 : Int) ≠ 77 ∧
      advanceTick [] { snake := initSnake, apple := 100, lost := false } =
        some { snake := [⟨.right, [], 77⟩, ⟨.right, [], 76⟩, ⟨.right, [], 75⟩,
                         ⟨.right, [], 74⟩]
               apple := 100
               lost := false } :=
  ⟨by decide, initial_tick_moves_snake_right 100 [] (by decide)⟩

/-- Claim C10: in every state reachable from the initial state by any
sequence of key presses and ticks (growth included), the head segment's
pending-turn queue is empty: it starts empty, the head's turning branch
clears it, its straight branch never fills it, and growth only appends
at the tail. -/
theorem reachable_head_queue_empty (st : GameState) (hr : Reachable st) :
    ∀ h : Segment, st.snake.head? = some h → h.directionChanges = [] := by
  induction hr with
  | init draws st hinit =>
    intro h hh
    obtain ⟨a, ha, hst⟩ := Option.map_eq_some'.mp hinit
    subst hst
    have hh0 : initSnake.head? =
        some ⟨.right, [], 4 + BOARD_SIZE * (BOARD_SIZE / 2) - ((0 : Nat) : Int)⟩ := by decide
    rw [show ({ snake := initSnake, apple := a, lost := false } : GameState).snake = initSnake
          from rfl, hh0] at hh
    cases hh
    rfl
  | tick draws st st' hr hstep ih =>
    intro h hh
    unfold advanceTick at hstep
    split at hstep
    · injection hstep with e
      subst e
      exact ih h hh
    · split at hstep
      · exact absurd hstep (by simp)
      case _ head rest heq =>
        split at hstep
        · injection hstep with e
          subst e
          exact ih h hh
        · have hq : head.directionChanges = [] := ih head (by rw [heq]; rfl)
          obtain ⟨h', rest', hms, hq'⟩ := moveSnake_head_queue head.direction head rest hq
          rcases checkAppleEaten_cases _ _ _ hstep with e | ⟨x, hx⟩
          · subst e
            rw [show ({ st with snake := moveSnake head.direction (head :: rest) } :
                  GameState).snake = moveSnake head.direction (head :: rest) from rfl,
                hms] at hh
            cases hh
            exact hq'
          · rw [show ({ st with snake := moveSnake head.direction (head :: rest) } :
                  GameState).snake = moveSnake head.direction (head :: rest) from rfl,
                hms] at hx
            rw [hx] at hh
            simp only [List.cons_append, List.head?_cons] at hh
            cases hh
            exact hq'
  | key d draws st st' hr hstep ih =>
    intro h hh
    unfold requestDirectionChange at hstep
    split at hstep
    · exact absurd hstep (by simp)
    case _ head rest heq =>
      split at hstep
      · injection hstep with e
        subst e
        exact ih h hh
      · split at hstep
        · injection hstep with e
          subst e
          exact ih h hh
        · have hq : head.directionChanges = [] := ih head (by rw [heq]; rfl)
          obtain ⟨h', rest', hms, hq'⟩ := moveSnake_head_queue d head rest hq
          rcases checkAppleEaten_cases _ _ _ hstep with e | ⟨x, hx⟩
          · subst e
            rw [show ({ st with snake := moveSnake d (head :: rest) } : GameState).snake
                  = moveSnake d (head :: rest) from rfl, hms] at hh
            cases hh
            exact hq'
          · rw [show ({ st with snake := moveSnake d (head :: rest) } : GameState).snake
                  = moveSnake d (head :: rest) from rfl, hms] at hx
            rw [hx] at hh
            simp only [List.cons_append, List.head?_cons] at hh
            cases hh
            exact hq'

/-- Witness for claim C10 at the initial state with the apple drawn at
cell 0. -/
theorem reachable_head_queue_empty_witness :
    (⟨Direction.right, [], (76 : Int)⟩ : Segment).directionChanges = [] :=
  reachable_head_queue_empty { snake := initSnake, apple := 0, lost := false }
    (Reachable.init [0] _ (by decide)) ⟨.right, [], 76⟩ (by decide)

end Snake
